import Mathlib

/-!
# A verification development for `ls.c`

The program lists one directory: it reads the directory stream, stats every
entry whose name does not start with a period, stores one record per entry in
a growable table, and prints a block total followed by one line per record.

Modelling conventions

* A C string is the list of its bytes before the terminator; reading one
  position past the end of such a list yields the terminator `NUL`.
  A buffer (as opposed to a string) is a list that may hold `NUL` bytes, and
  the string stored in it is `cstr`, the bytes before the first `NUL`.
* `mode_t`, `nlink_t`, `uid_t`, `gid_t` values are natural numbers.
  `st_blocks` is a signed `blkcnt_t`, an integer; the block total is a
  `uintmax_t`, so it is kept modulo `2 ^ 64`.
* `cwd_n_alloc` and `cwd_n_used` count records that are held in memory, which
  keeps them far below `2 ^ 63`; they are natural numbers. Allocation is
  taken to succeed, and the `int` index of the printing loop to stay in range.
* The file system is a parameter (`OS`): the answers of `opendir`, `readdir`,
  `closedir`, `lstat`, `readlink`, `getpwuid`, `getgrgid` and of the time
  formatting, and the memory that follows the buffers the program overruns.
* `exit` ends the run: a computation yields `Result.exit` and nothing
  sequenced after it is executed. Dereferencing a null pointer kills the
  process: a computation yields `Result.fault`.
-/

namespace Ls

/-! ## C strings and buffers -/

/-- The string terminator. -/
def NUL : Char := Char.ofNat 0

/-- The byte read by `p[i]` for a C string `p`: past the end of the list one
reads the terminator. -/
def cget (p : List Char) (i : Nat) : Char := p.getD i NUL

/-- The string stored in a buffer: the bytes before the first `NUL`
(what `strdup`, `strlen` and `%s` see). -/
def cstr (buf : List Char) : List Char := buf.takeWhile (fun c => c != NUL)

/-! ## Mode bits (`<sys/stat.h>`, Linux values) -/

def S_IFMT : Nat := 0o170000
def S_IFSOCK : Nat := 0o140000
def S_IFLNK : Nat := 0o120000
def S_IFREG : Nat := 0o100000
def S_IFBLK : Nat := 0o060000
def S_IFDIR : Nat := 0o040000
def S_IFCHR : Nat := 0o020000
def S_IFIFO : Nat := 0o010000
def S_ISUID : Nat := 0o4000
def S_ISGID : Nat := 0o2000
def S_ISVTX : Nat := 0o1000
def S_IRUSR : Nat := 0o400
def S_IWUSR : Nat := 0o200
def S_IXUSR : Nat := 0o100
def S_IRGRP : Nat := 0o040
def S_IWGRP : Nat := 0o020
def S_IXGRP : Nat := 0o010
def S_IROTH : Nat := 0o004
def S_IWOTH : Nat := 0o002
def S_IXOTH : Nat := 0o001

def S_ISREG (m : Nat) : Bool := m &&& S_IFMT == S_IFREG
def S_ISDIR (m : Nat) : Bool := m &&& S_IFMT == S_IFDIR
def S_ISBLK (m : Nat) : Bool := m &&& S_IFMT == S_IFBLK
def S_ISCHR (m : Nat) : Bool := m &&& S_IFMT == S_IFCHR
def S_ISLNK (m : Nat) : Bool := m &&& S_IFMT == S_IFLNK
def S_ISFIFO (m : Nat) : Bool := m &&& S_IFMT == S_IFIFO
def S_ISSOCK (m : Nat) : Bool := m &&& S_IFMT == S_IFSOCK

/-- The C truth value of `mode & mask`. -/
def tst (mode mask : Nat) : Bool := mode &&& mask != 0

/-- Source: `ftypelet`. -/
def ftypelet (bits : Nat) : Char :=
  if S_ISREG bits then '-'
  else if S_ISDIR bits then 'd'
  else if S_ISBLK bits then 'b'
  else if S_ISCHR bits then 'c'
  else if S_ISLNK bits then 'l'
  else if S_ISFIFO bits then 'p'
  else if S_ISSOCK bits then 's'
  else '?'

/-- Source: `strmode`. The function stores twelve bytes into the caller's
buffer `str`, at the indices 0 to 11, and returns nothing; the model returns
the buffer after the stores. -/
def strmode (mode : Nat) (str : List Char) : List Char :=
  let str := str.set 0 (ftypelet mode)
  let str := str.set 1 (if tst mode S_IRUSR then 'r' else '-')
  let str := str.set 2 (if tst mode S_IWUSR then 'w' else '-')
  let str := str.set 3 (if tst mode S_ISUID then (if tst mode S_IXUSR then 's' else 'S')
                        else (if tst mode S_IXUSR then 'x' else '-'))
  let str := str.set 4 (if tst mode S_IRGRP then 'r' else '-')
  let str := str.set 5 (if tst mode S_IWGRP then 'w' else '-')
  let str := str.set 6 (if tst mode S_ISGID then (if tst mode S_IXGRP then 's' else 'S')
                        else (if tst mode S_IXGRP then 'x' else '-'))
  let str := str.set 7 (if tst mode S_IROTH then 'r' else '-')
  let str := str.set 8 (if tst mode S_IWOTH then 'w' else '-')
  let str := str.set 9 (if tst mode S_ISVTX then (if tst mode S_IXOTH then 't' else 'T')
                        else (if tst mode S_IXOTH then 'x' else '-'))
  let str := str.set 10 ' '
  str.set 11 NUL

/-- The mode string `print_file` prints: `strmode` into its local twelve-byte
`modebuf`, read back as a string by `%s`. What the buffer held before does not
matter, all twelve bytes are stored. -/
def modeString (mode : Nat) : List Char := cstr (strmode mode (List.replicate 12 NUL))

/-! ### The mode string as the specification words it -/

/-- The type field of a mode: the four bits above the twelve permission bits. -/
def typeField (m : Nat) : Nat := m / 4096 % 16

/-- The type letter of a type field, as the specification lists them. -/
def typeLetter (field : Nat) : Char :=
  match field with
  | 8 => '-'
  | 4 => 'd'
  | 6 => 'b'
  | 2 => 'c'
  | 10 => 'l'
  | 1 => 'p'
  | 12 => 's'
  | _ => '?'

/-- A read or write flag: its letter when the bit is set, a dash otherwise. -/
def flagChar (bit : Bool) (letter : Char) : Char := if bit then letter else '-'

/-- An execute position: `lower` when the special bit and the execute bit are
both set, `upper` when only the special bit is, `x` when only the execute bit
is, a dash when neither is. -/
def execChar (special exec : Bool) (lower upper : Char) : Char :=
  match special, exec with
  | true, true => lower
  | true, false => upper
  | false, true => 'x'
  | false, false => '-'

/-- The eleven characters of the mode string, from the bits of the mode. -/
def modeChars (m : Nat) : List Char :=
  [typeLetter (typeField m),
   flagChar (m.testBit 8) 'r', flagChar (m.testBit 7) 'w',
   execChar (m.testBit 11) (m.testBit 6) 's' 'S',
   flagChar (m.testBit 5) 'r', flagChar (m.testBit 4) 'w',
   execChar (m.testBit 10) (m.testBit 3) 's' 'S',
   flagChar (m.testBit 2) 'r', flagChar (m.testBit 1) 'w',
   execChar (m.testBit 9) (m.testBit 0) 't' 'T',
   ' ']

/-- Reading a flag position back. -/
def decodeFlag (c : Char) (weight : Nat) : Nat := if c = '-' then 0 else weight

/-- Reading an execute position back: the weight of the special bit and the
weight of the execute bit. -/
def decodeExec (c : Char) (special exec : Nat) : Nat :=
  if c = 's' ∨ c = 't' then special + exec
  else if c = 'S' ∨ c = 'T' then special
  else if c = 'x' then exec
  else 0

/-- The twelve permission bits read back from a mode string. -/
def decodeMode (s : List Char) : Nat :=
  decodeFlag (cget s 1) 0o400 + decodeFlag (cget s 2) 0o200 + decodeExec (cget s 3) 0o4000 0o100
  + decodeFlag (cget s 4) 0o040 + decodeFlag (cget s 5) 0o020 + decodeExec (cget s 6) 0o2000 0o010
  + decodeFlag (cget s 7) 0o004 + decodeFlag (cget s 8) 0o002 + decodeExec (cget s 9) 0o1000 0o001

/-! ## Records, the table, the process state -/

/-- The fields of `struct stat` that the program reads. `st_mtim` is the
`tv_sec` part, the only one `format_time` uses. -/
structure Stat where
  st_mode : Nat
  st_nlink : Nat
  st_uid : Nat
  st_gid : Nat
  st_blocks : Int
  st_mtim : Int
deriving DecidableEq

/-- Source: `struct fileinfo`. A `char *` is `none` when it is the null
pointer; otherwise it points to a heap block and the model keeps the bytes of
that block, terminator included when the block holds one. -/
structure fileinfo where
  name : Option (List Char)
  linkname : Option (List Char)
  stat : Stat
deriving DecidableEq

/-- A record after `memset (f, 0, sizeof *f)`. -/
def fileinfo.zero : fileinfo := ⟨none, none, ⟨0, 0, 0, 0, 0, 0⟩⟩

/-- One `printf` of the program with its arguments: the summary line
`"total %lu\n"`, or an entry line `"%s\t%lu\t%s\t%s\t%s\t%s\n"`. -/
inductive Output where
  | total (total_blocks : Nat)
  | file (modebuf : List Char) (st_nlink : Nat) (pw_name gr_name m_time : List Char)
      (name : Option (List Char))
deriving DecidableEq

/-- One `fprintf (stderr, "file %s error:%s\n", file, message)`. -/
structure Report where
  file : List Char
  message : List Char
deriving DecidableEq

/-- The state of the process: the three globals of the table, and the calls
of `printf` and of `fprintf (stderr, ...)` made so far, in order (what is
printed). `cwd_file i` is slot `i` of the block that `cwd_file` points to. -/
structure State where
  cwd_file : Nat → fileinfo
  cwd_n_alloc : Nat
  cwd_n_used : Nat
  stdout : List Output
  stderr : List Report

/-- The store `cwd_file[i] = r`. -/
def State.store (s : State) (i : Nat) (r : fileinfo) : State :=
  { s with cwd_file := Function.update s.cwd_file i r }

/-- The records of the table: the slots below `cwd_n_used`, in index order. -/
def table (s : State) : List fileinfo := (List.range s.cwd_n_used).map s.cwd_file

/-- How a piece of the program ends: it returns a value, the process has
called `exit` with a status, or the process has been killed by a memory fault
(a null pointer was dereferenced). -/
inductive Result (α : Type) where
  | ret (value : α) (s : State)
  | exit (status : Nat) (s : State)
  | fault (s : State)

/-- Sequencing: what follows a call runs only when the call returns. -/
def Result.bind {α β : Type} (r : Result α) (k : α → State → Result β) : Result β :=
  match r with
  | .ret a s => k a s
  | .exit c s => .exit c s
  | .fault s => .fault s

/-- The state in which a piece of the program ended. -/
def Result.state {α : Type} : Result α → State
  | .ret _ s => s
  | .exit _ s => s
  | .fault s => s

/-- The exit status, when the process was ended by `exit`. -/
def Result.status {α : Type} : Result α → Option Nat
  | .ret _ _ => none
  | .exit c _ => some c
  | .fault _ => none

/-- The returned value, when the piece returned. -/
def Result.value {α : Type} : Result α → Option α
  | .ret a _ => some a
  | .exit _ _ => none
  | .fault _ => none

/-- One answer of `readdir`: an entry with its `d_name`, or a null pointer
together with the value `errno` then has (zero when the stream is exhausted,
the error otherwise). Reading past the end of the list of answers yields a
null pointer with `errno` still zero. -/
inductive ReadEvent where
  | entry (d_name : List Char)
  | null (errno : Nat)
deriving DecidableEq

/-- An open directory stream: the answers `readdir` will give, and whether
`closedir` returns zero. -/
structure Dir where
  stream : List ReadEvent
  closes : Bool

/-- What the program's system and library calls answer. `opendir` and `lstat`
answer `none` on failure; `readlink` gives the target of a link (no
terminator), `none` on failure; `getpwuid` and `getgrgid` give the `pw_name`
and the `gr_name` of the entry found, `none` when they return a null pointer;
`strftime` gives the text `format_time` leaves in its buffer.
`stack_after_buf` is the memory that follows the local buffer of
`resolve_link`; `heap_after b` is the memory that follows, at the time the
table is printed, the heap block whose bytes are `b`. -/
structure OS where
  opendir : List Char → Option Dir
  lstat : List Char → Option Stat
  readlink : List Char → Option (List Char)
  stack_after_buf : List Char
  getpwuid : Nat → Option (List Char)
  getgrgid : Nat → Option (List Char)
  strftime : Int → List Char
  heap_after : List Char → List Char

def EOVERFLOW : Nat := 75

def LINK_BUF_LEN : Nat := 500

/-- The store done by `readlink (filename, buf, bufsiz)`: the first `bufsiz`
bytes of the target go to the start of `buf`, nothing else is written, no
terminator is added; on failure `buf` is left as it was. -/
def readlink_into (target : Option (List Char)) (buf : List Char) (bufsiz : Nat) : List Char :=
  match target with
  | none => buf
  | some t => t.take bufsiz ++ buf.drop (min t.length bufsiz)

/-- Source: `resolve_link`. `strdup (buf)` copies from the start of `buf` up
to the first `NUL` it meets, in `buf` or in the memory after it; the result
is the string copied. -/
def resolve_link (os : OS) (filename : List Char) : List Char :=
  let buf := List.replicate LINK_BUF_LEN NUL
  let buf := readlink_into (os.readlink filename) buf LINK_BUF_LEN
  cstr (buf ++ os.stack_after_buf)

/-- The heap block `strdup` allocates for a string: its bytes and the
terminator. -/
def strdup (s : List Char) : List Char := s ++ [NUL]

/-- The string `%s` or `strlen` reads from a heap block at the time the table
is printed: the bytes up to the first `NUL`, in the block or after it. -/
def read_str (os : OS) (block : List Char) : List Char := cstr (block ++ os.heap_after block)

/-- Source: `file_failure`. It reports on `stderr` and calls `exit (1)`. -/
def file_failure (message file : List Char) (s : State) : Result Unit :=
  .exit 1 { s with stderr := s.stderr ++ [⟨file, message⟩] }

/-- Source: `clear_files`. The loop frees the two strings of every slot in
use; the counter is then reset. -/
def clear_files (s : State) : State := { s with cwd_n_used := 0 }

/-- Source: `file_ignored`. -/
def file_ignored (name : List Char) : Bool := cget name 0 == '.'

/-- Source: `attach`. The result is the string left in `dest`. -/
def attach (dirname name : List Char) : List Char :=
  let dest : List Char :=
    if cget dirname 0 ≠ '.' ∨ cget dirname 1 ≠ NUL then
      -- while (*dirnamep) *dest++ = *dirnamep++;
      let dest := dirname
      -- if (dirnamep > dirname && dirnamep[-1] != '/') *dest++ = '/';
      if 0 < dirname.length ∧ cget dirname (dirname.length - 1) ≠ '/' then dest ++ ['/'] else dest
    else []
  -- while (*name) *dest++ = *name++;
  dest ++ name

/-- The bytes `attach` stores into `dest`, the terminator included. -/
def attach_bytes (dirname name : List Char) : Nat := (attach dirname name).length + 1

/-- The size of the block `gobble_file` gets from `alloca` for `attach`. -/
def attach_alloc (dirname name : List Char) : Nat := name.length + dirname.length + 2

/-- The path `gobble_file` stats (lines 202 to 207). -/
def absolute_name (name dirname : List Char) : List Char :=
  if cget name 0 = '/' ∨ cget dirname 0 = NUL then name else attach dirname name

/-- The size `gobble_file` asks `malloc` for, for the display name of a link
(line 228). -/
def link_name_alloc (name linkname : List Char) : Nat := name.length + 4 + linkname.length

/-- The string `sprintf (f->name, "%s%s%s", name, " -> ", f->linkname)`
produces (line 229). -/
def link_name (name linkname : List Char) : List Char := name ++ " -> ".toList ++ linkname

/-- The bytes that `sprintf` stores: the string and its terminator. -/
def link_name_bytes (name linkname : List Char) : Nat := (link_name name linkname).length + 1

/-- The conversion of a `blkcnt_t` to `uintmax_t`. -/
def to_uintmax (x : Int) : Nat := (x % 18446744073709551616).toNat

/-- Source: `gobble_file`. The block for the display name of a link keeps the
bytes of `sprintf` that fit in the `link_name_alloc` bytes asked for; the byte
stored past the block is taken to do no harm other than being overwritten
later (see `read_str`). -/
def gobble_file (os : OS) (name dirname : List Char) (s : State) : Result Nat :=
  let s := if s.cwd_n_used = s.cwd_n_alloc then { s with cwd_n_alloc := s.cwd_n_alloc * 2 } else s
  let f := s.cwd_n_used
  let s := s.store f fileinfo.zero
  let absolute_name := absolute_name name dirname
  match os.lstat absolute_name with
  | none =>
    (file_failure "cannot access %s".toList absolute_name s).bind fun _ s =>
      let s := s.store f { s.cwd_file f with name := some (strdup name) }
      .ret 0 { s with cwd_n_used := s.cwd_n_used + 1 }
  | some st =>
    let s := s.store f { s.cwd_file f with stat := st }
    let s :=
      if S_ISLNK (s.cwd_file f).stat.st_mode then
        s.store f { s.cwd_file f with
          linkname := some (strdup (resolve_link os absolute_name)) }
      else s
    let blocks := to_uintmax (s.cwd_file f).stat.st_blocks
    let s :=
      if S_ISLNK (s.cwd_file f).stat.st_mode then
        let linkname := cstr ((s.cwd_file f).linkname.getD [])
        s.store f { s.cwd_file f with
          name := some ((link_name name linkname ++ [NUL]).take
            (link_name_alloc name linkname)) }
      else s.store f { s.cwd_file f with name := some (strdup name) }
    .ret blocks { s with cwd_n_used := s.cwd_n_used + 1 }

/-- Source: `format_time` and `print_file`. The results of `getpwuid` and
`getgrgid` are dereferenced unchecked: a null pointer there kills the process
before the line is printed. -/
def print_file (os : OS) (f : fileinfo) (s : State) : Result Unit :=
  let modebuf := modeString f.stat.st_mode
  let m_time := os.strftime f.stat.st_mtim
  match os.getpwuid f.stat.st_uid with
  | none => .fault s
  | some pw_name =>
    match os.getgrgid f.stat.st_gid with
    | none => .fault s
    | some gr_name =>
      .ret () { s with stdout := s.stdout
        ++ [Output.file modebuf f.stat.st_nlink pw_name gr_name m_time
              (f.name.map (read_str os))] }

/-- The `while (1)` loop of `print_dir`, over the answers `readdir` gives.
The value returned is `total_blocks` when the loop is left. -/
def read_loop (os : OS) (name : List Char) :
    List ReadEvent → Nat → State → Result Nat
  | [], total_blocks, s => .ret total_blocks s
  | .entry d_name :: rest, total_blocks, s =>
    if !file_ignored d_name then
      (gobble_file os d_name name s).bind fun blocks s =>
        read_loop os name rest ((total_blocks + blocks) % 18446744073709551616) s
    else read_loop os name rest total_blocks s
  | .null errno :: rest, total_blocks, s =>
    if errno ≠ 0 then
      (file_failure "reading directory %s".toList name s).bind fun _ s =>
        if errno ≠ EOVERFLOW then .ret total_blocks s
        else read_loop os name rest total_blocks s
    else .ret total_blocks s

/-- The `for` loop of `print_dir` over the slots in use. -/
def print_files (os : OS) : List fileinfo → State → Result Unit
  | [], s => .ret () s
  | f :: rest, s => (print_file os f s).bind fun _ s => print_files os rest s

/-- Source: `print_dir`. -/
def print_dir (os : OS) (name : List Char) (s : State) : Result Unit :=
  match os.opendir name with
  | none =>
    (file_failure "cannot open directory %s".toList name s).bind fun _ s => .ret () s
  | some dirp =>
    (read_loop os name dirp.stream 0 s).bind fun total_blocks s =>
      (if dirp.closes then .ret () s
       else file_failure "closing directory %s".toList name s).bind fun _ s =>
        let s := { s with stdout := s.stdout ++ [Output.total total_blocks] }
        print_files os (table s) s

/-- The state at the start of the process: nothing written yet; the table
pointer and its counters are zero-initialised statics. -/
def State.start : State := ⟨fun _ => fileinfo.zero, 0, 0, [], []⟩

/-- The first three statements of `main`: a block of 100 slots, none used. -/
def main_setup (s : State) : State := { s with cwd_n_alloc := 100, cwd_n_used := 0 }

/-- Source: `main`. `argv` holds the `argc` arguments, the program name
first. -/
def main (os : OS) (argv : List (List Char)) : Result Unit :=
  let dir := if argv.length ≥ 2 then argv.getD 1 [] else ".".toList
  let s := main_setup State.start
  let s := clear_files s
  print_dir os dir s

/-! ## Sequences of table operations -/

/-- A call that changes the table: `clear_files ()`, or
`gobble_file (name, dirname)`. -/
inductive TableOp where
  | clear
  | append (name dirname : List Char)

/-- Runs calls one after the other; `none` when a `gobble_file` does not
return (its append did not succeed). -/
def run_ops (os : OS) : List TableOp → State → Option State
  | [], s => some s
  | .clear :: ops, s => run_ops os ops (clear_files s)
  | .append name dirname :: ops, s =>
    match gobble_file os name dirname s with
    | .ret _ s => run_ops os ops s
    | .exit _ _ => none
    | .fault _ => none

/-! ## The listing as the specification words it -/

/-- A name begins with a period. -/
def begins_with_dot (name : List Char) : Bool := name.head? == some '.'

/-- Every `readdir` of the stream succeeds: every answer in the list is an
entry (the stream is exhausted at the end of the list). -/
def reads_succeed (stream : List ReadEvent) : Bool :=
  stream.all fun ev =>
    match ev with
    | .entry _ => true
    | .null _ => false

/-- The names a directory stream enumerates, in order. -/
def enumerated : List ReadEvent → List (List Char)
  | [] => []
  | .entry d_name :: rest => d_name :: enumerated rest
  | .null _ :: rest => enumerated rest

/-- The enumerated names that are not excluded, in order. -/
def listed (stream : List ReadEvent) : List (List Char) :=
  (enumerated stream).filter (fun n => !begins_with_dot n)

/-- The stat found at a path; the zero stat when the path cannot be
statted. -/
def stat_at (os : OS) (path : List Char) : Stat :=
  (os.lstat path).getD fileinfo.zero.stat

/-- The record of the entry `name` found at `path`: its stat; for a link the
block of the target, and a block with the display name `name -> target`
(the asked size leaves no room for the terminator); for any other file a
block with the bare name. -/
def record_at (os : OS) (name path : List Char) : fileinfo :=
  let st := stat_at os path
  if S_ISLNK st.st_mode then
    let target := resolve_link os path
    ⟨some (name ++ " -> ".toList ++ target), some (target ++ [NUL]), st⟩
  else ⟨some (name ++ [NUL]), none, st⟩

/-- The name field of an entry line. -/
def Output.shown_name : Output → Option (List Char)
  | .total _ => none
  | .file _ _ _ _ _ name => name

/-! ## Example file systems -/

/-- A directory with three regular files of `2 ^ 63 - 1` blocks each. -/
def os_big : OS where
  opendir := fun p =>
    if p = ".".toList then
      some ⟨[.entry ".".toList, .entry "..".toList, .entry "a".toList, .entry "b".toList,
             .entry "c".toList], true⟩
    else none
  lstat := fun _ => some ⟨0o100644, 1, 0, 0, 9223372036854775807, 0⟩
  readlink := fun _ => none
  stack_after_buf := []
  getpwuid := fun _ => some "root".toList
  getgrgid := fun _ => some "root".toList
  strftime := fun _ => "Jan 01 00:00".toList
  heap_after := fun _ => []

/-- A directory with a regular file, a link and three names that begin with a
period. The byte after the block of the link's display name has been
overwritten with `!` by the time the table is printed. -/
def os_small : OS where
  opendir := fun p =>
    if p = ".".toList then
      some ⟨[.entry ".".toList, .entry "..".toList, .entry "a".toList, .entry "l".toList,
             .entry ".h".toList], true⟩
    else none
  lstat := fun p =>
    if p = "a".toList then some ⟨0o100644, 1, 0, 0, 8, 0⟩
    else if p = "l".toList then some ⟨0o120777, 1, 0, 0, 0, 0⟩
    else none
  readlink := fun p => if p = "l".toList then some "target".toList else none
  stack_after_buf := []
  getpwuid := fun _ => some "root".toList
  getgrgid := fun _ => some "root".toList
  strftime := fun _ => "Jan 01 00:00".toList
  heap_after := fun _ => ['!', NUL]

/-- A link whose target is 500 bytes long; two bytes and a `NUL` follow the
buffer in memory. -/
def os_long_link : OS where
  opendir := fun _ => some ⟨[.entry "l".toList], true⟩
  lstat := fun _ => some ⟨0o120777, 1, 0, 0, 0, 0⟩
  readlink := fun _ => some (List.replicate 500 'a')
  stack_after_buf := ['X', 'Y', NUL]
  getpwuid := fun _ => some "root".toList
  getgrgid := fun _ => some "root".toList
  strftime := fun _ => "Jan 01 00:00".toList
  heap_after := fun _ => []

/-- A directory with one entry that cannot be statted. -/
def os_gone : OS where
  opendir := fun _ => some ⟨[.entry "gone".toList], true⟩
  lstat := fun _ => none
  readlink := fun _ => none
  stack_after_buf := []
  getpwuid := fun _ => some "root".toList
  getgrgid := fun _ => some "root".toList
  strftime := fun _ => "Jan 01 00:00".toList
  heap_after := fun _ => []

/-- A directory whose first read fails with `EIO`; an entry would follow. -/
def os_read_error : OS where
  opendir := fun _ => some ⟨[.null 5, .entry "a".toList], true⟩
  lstat := fun _ => some ⟨0o100644, 1, 0, 0, 8, 0⟩
  readlink := fun _ => none
  stack_after_buf := []
  getpwuid := fun _ => some "root".toList
  getgrgid := fun _ => some "root".toList
  strftime := fun _ => "Jan 01 00:00".toList
  heap_after := fun _ => []

/-- A directory with one regular file, whose close fails. -/
def os_close_error : OS where
  opendir := fun _ => some ⟨[.entry "a".toList], false⟩
  lstat := fun _ => some ⟨0o100644, 1, 0, 0, 8, 0⟩
  readlink := fun _ => none
  stack_after_buf := []
  getpwuid := fun _ => some "root".toList
  getgrgid := fun _ => some "root".toList
  strftime := fun _ => "Jan 01 00:00".toList
  heap_after := fun _ => []

/-! ## Lemmas on mode bits -/

theorem tst_pow (m i : Nat) : tst m (2 ^ i) = m.testBit i := by
  unfold tst
  rw [Nat.and_two_pow]
  cases m.testBit i <;> simp

theorem and_S_IFMT (m : Nat) : m &&& S_IFMT = typeField m * 4096 := by
  unfold S_IFMT typeField
  apply Nat.eq_of_testBit_eq
  intro i
  have h1 : (0o170000 : Nat) = 2 ^ 12 * (2 ^ 4 - 1) := by norm_num
  have h2 : m / 4096 % 16 * 4096 = 2 ^ 12 * (m / 2 ^ 12 % 2 ^ 4) := by
    norm_num [Nat.mul_comm]
  rw [h1, h2, Nat.testBit_and, Nat.testBit_mul_pow_two, Nat.testBit_mul_pow_two,
    Nat.testBit_two_pow_sub_one, Nat.testBit_mod_two_pow, ← Nat.shiftRight_eq_div_pow,
    Nat.testBit_shiftRight]
  by_cases h : 12 ≤ i
  · have h3 : 12 + (i - 12) = i := by omega
    rw [h3]
    cases m.testBit i <;> simp
  · simp [h]

theorem ftypelet_eq (m : Nat) : ftypelet m = typeLetter (typeField m) := by
  have hlt : typeField m < 16 := Nat.mod_lt _ (by norm_num)
  unfold ftypelet S_ISREG S_ISDIR S_ISBLK S_ISCHR S_ISLNK S_ISFIFO S_ISSOCK
  rw [and_S_IFMT]
  unfold S_IFREG S_IFDIR S_IFBLK S_IFCHR S_IFLNK S_IFIFO S_IFSOCK
  generalize typeField m = t at hlt
  interval_cases t <;> rfl

theorem typeLetter_ne_NUL (t : Nat) : typeLetter t ≠ NUL := by
  unfold typeLetter
  split <;> decide

theorem flagChar_eq (m i : Nat) (c : Char) :
    (if tst m (2 ^ i) then c else '-') = flagChar (m.testBit i) c := by
  rw [tst_pow]; rfl

theorem execChar_eq (m i j : Nat) (lo up : Char) :
    (if tst m (2 ^ i) then (if tst m (2 ^ j) then lo else up)
      else (if tst m (2 ^ j) then 'x' else '-'))
      = execChar (m.testBit i) (m.testBit j) lo up := by
  rw [tst_pow, tst_pow]
  cases m.testBit i <;> cases m.testBit j <;> rfl

/-- The stores of `strmode` into a buffer of at least twelve bytes. -/
theorem strmode_eq (m : Nat) (str : List Char) (h : 12 ≤ str.length) :
    strmode m str = modeChars m ++ NUL :: str.drop 12 := by
  match str, h with
  | a0 :: a1 :: a2 :: a3 :: a4 :: a5 :: a6 :: a7 :: a8 :: a9 :: a10 :: a11 :: rest, _ =>
    have e1 := flagChar_eq m 8 'r'
    have e2 := flagChar_eq m 7 'w'
    have e3 := execChar_eq m 11 6 's' 'S'
    have e4 := flagChar_eq m 5 'r'
    have e5 := flagChar_eq m 4 'w'
    have e6 := execChar_eq m 10 3 's' 'S'
    have e7 := flagChar_eq m 2 'r'
    have e8 := flagChar_eq m 1 'w'
    have e9 := execChar_eq m 9 0 't' 'T'
    norm_num at e1 e2 e3 e4 e5 e6 e7 e8 e9
    simp only [strmode, List.set, modeChars, S_IRUSR, S_IWUSR, S_IXUSR, S_IRGRP, S_IWGRP,
      S_IXGRP, S_IROTH, S_IWOTH, S_IXOTH, S_ISUID, S_ISGID, S_ISVTX, ftypelet_eq]
    norm_num
    exact ⟨e1, e2, e3, e4, e5, e6, e7, e8, e9⟩

theorem flagChar_ne_NUL (b : Bool) : flagChar b 'r' ≠ NUL ∧ flagChar b 'w' ≠ NUL := by
  cases b <;> decide

theorem execChar_ne_NUL (a b : Bool) :
    execChar a b 's' 'S' ≠ NUL ∧ execChar a b 't' 'T' ≠ NUL := by
  cases a <;> cases b <;> decide

theorem cstr_append_NUL (l rest : List Char) (h : ∀ c ∈ l, c ≠ NUL) :
    cstr (l ++ NUL :: rest) = l := by
  induction l with
  | nil => simp [cstr, List.takeWhile]
  | cons a l ih =>
    have ha : a ≠ NUL := h a (List.mem_cons_self a l)
    have hl : cstr (l ++ NUL :: rest) = l := ih (fun c hc => h c (List.mem_cons_of_mem a hc))
    unfold cstr at hl ⊢
    simp [List.takeWhile_cons, ha, hl]

theorem modeChars_no_NUL (m : Nat) : ∀ c ∈ modeChars m, c ≠ NUL := by
  intro c hc
  simp only [modeChars, List.mem_cons, List.mem_singleton, List.mem_nil_iff, or_false] at hc
  rcases hc with h | h | h | h | h | h | h | h | h | h | h <;> rw [h]
  · exact typeLetter_ne_NUL _
  · exact (flagChar_ne_NUL _).1
  · exact (flagChar_ne_NUL _).2
  · exact (execChar_ne_NUL _ _).1
  · exact (flagChar_ne_NUL _).1
  · exact (flagChar_ne_NUL _).2
  · exact (execChar_ne_NUL _ _).1
  · exact (flagChar_ne_NUL _).1
  · exact (flagChar_ne_NUL _).2
  · exact (execChar_ne_NUL _ _).2
  · decide

theorem cstr_modeChars (m : Nat) (rest : List Char) :
    cstr (modeChars m ++ NUL :: rest) = modeChars m :=
  cstr_append_NUL _ _ (modeChars_no_NUL m)

theorem testBit_low (m i : Nat) (h : i < 12) : m.testBit i = (m % 4096).testBit i := by
  have : (4096 : Nat) = 2 ^ 12 := by norm_num
  rw [this, Nat.testBit_mod_two_pow]
  simp [h]

/-- The mode characters depend on the type field and the twelve low bits. -/
theorem modeChars_congr (m n : Nat) (ht : typeField m = typeField n)
    (hp : m % 4096 = n % 4096) : modeChars m = modeChars n := by
  unfold modeChars
  rw [ht, testBit_low m 0 (by norm_num), testBit_low m 1 (by norm_num),
    testBit_low m 2 (by norm_num), testBit_low m 3 (by norm_num),
    testBit_low m 4 (by norm_num), testBit_low m 5 (by norm_num),
    testBit_low m 6 (by norm_num), testBit_low m 7 (by norm_num),
    testBit_low m 8 (by norm_num), testBit_low m 9 (by norm_num),
    testBit_low m 10 (by norm_num), testBit_low m 11 (by norm_num), hp,
    ← testBit_low n 0 (by norm_num), ← testBit_low n 1 (by norm_num),
    ← testBit_low n 2 (by norm_num), ← testBit_low n 3 (by norm_num),
    ← testBit_low n 4 (by norm_num), ← testBit_low n 5 (by norm_num),
    ← testBit_low n 6 (by norm_num), ← testBit_low n 7 (by norm_num),
    ← testBit_low n 8 (by norm_num), ← testBit_low n 9 (by norm_num),
    ← testBit_low n 10 (by norm_num), ← testBit_low n 11 (by norm_num)]

theorem S_ISREG_iff (m : Nat) : S_ISREG m = true ↔ typeField m = 8 := by
  unfold S_ISREG
  rw [and_S_IFMT, beq_iff_eq]
  unfold S_IFREG
  omega

theorem S_ISDIR_iff (m : Nat) : S_ISDIR m = true ↔ typeField m = 4 := by
  unfold S_ISDIR
  rw [and_S_IFMT, beq_iff_eq]
  unfold S_IFDIR
  omega

theorem bit_toNat (m i : Nat) : (m.testBit i).toNat = m / 2 ^ i % 2 := by
  rw [Nat.testBit_to_div_mod]
  rcases Nat.mod_two_eq_zero_or_one (m / 2 ^ i) with h | h <;> simp [h]

theorem decodeFlag_flagChar (b : Bool) (w : Nat) :
    decodeFlag (flagChar b 'r') w = b.toNat * w ∧ decodeFlag (flagChar b 'w') w = b.toNat * w := by
  cases b <;> simp [decodeFlag, flagChar]

theorem decodeExec_execChar (a b : Bool) (sw ew : Nat) :
    decodeExec (execChar a b 's' 'S') sw ew = a.toNat * sw + b.toNat * ew
    ∧ decodeExec (execChar a b 't' 'T') sw ew = a.toNat * sw + b.toNat * ew := by
  cases a <;> cases b <;> simp [decodeExec, execChar]

theorem mod_4096_bits (m : Nat) :
    m % 4096 = m / 2 ^ 11 % 2 * 2048 + m / 2 ^ 10 % 2 * 1024 + m / 2 ^ 9 % 2 * 512
      + m / 2 ^ 8 % 2 * 256 + m / 2 ^ 7 % 2 * 128 + m / 2 ^ 6 % 2 * 64 + m / 2 ^ 5 % 2 * 32
      + m / 2 ^ 4 % 2 * 16 + m / 2 ^ 3 % 2 * 8 + m / 2 ^ 2 % 2 * 4 + m / 2 ^ 1 % 2 * 2
      + m / 2 ^ 0 % 2 * 1 := by
  have h0 := Nat.mod_pow_succ (b := 2) (x := m) (k := 0)
  have h1 := Nat.mod_pow_succ (b := 2) (x := m) (k := 1)
  have h2 := Nat.mod_pow_succ (b := 2) (x := m) (k := 2)
  have h3 := Nat.mod_pow_succ (b := 2) (x := m) (k := 3)
  have h4 := Nat.mod_pow_succ (b := 2) (x := m) (k := 4)
  have h5 := Nat.mod_pow_succ (b := 2) (x := m) (k := 5)
  have h6 := Nat.mod_pow_succ (b := 2) (x := m) (k := 6)
  have h7 := Nat.mod_pow_succ (b := 2) (x := m) (k := 7)
  have h8 := Nat.mod_pow_succ (b := 2) (x := m) (k := 8)
  have h9 := Nat.mod_pow_succ (b := 2) (x := m) (k := 9)
  have h10 := Nat.mod_pow_succ (b := 2) (x := m) (k := 10)
  have h11 := Nat.mod_pow_succ (b := 2) (x := m) (k := 11)
  norm_num at h0 h1 h2 h3 h4 h5 h6 h7 h8 h9 h10 h11 ⊢
  linarith

theorem decodeMode_modeChars (m : Nat) : decodeMode (modeChars m) = m % 4096 := by
  simp only [decodeMode, modeChars, cget, List.getD_cons_succ, List.getD_cons_zero]
  simp only [(decodeFlag_flagChar _ _).1, (decodeFlag_flagChar _ _).2,
    (decodeExec_execChar _ _ _ _).1, (decodeExec_execChar _ _ _ _).2]
  simp only [bit_toNat]
  rw [mod_4096_bits m]
  ring

/-- C1. For every mode `m`, `strmode` stores into a buffer of at least twelve
bytes the eleven characters of the mode string and then the terminator, and
leaves the rest of the buffer alone: character 0 is the type letter of the
type field of `m`, characters 1 to 9 are the owner, group and other flags
with `s`/`S` and `t`/`T` in the execute positions, character 10 is a space.
A regular file with permission bits 0644 gives `-rw-r--r-- `; a directory with
bits 0755, set-group-id set and group execute cleared gives `drwxr-Sr-x `. -/
theorem strmode_layout (m : Nat) (str : List Char) (h : 12 ≤ str.length) :
    strmode m str = modeChars m ++ NUL :: str.drop 12
    ∧ cstr (strmode m str) = modeChars m
    ∧ (cstr (strmode m str)).length = 11
    ∧ (S_ISREG m = true → m % 4096 = 0o644 → cstr (strmode m str) = "-rw-r--r-- ".toList)
    ∧ (S_ISDIR m = true → m % 4096 = 0o2745 → cstr (strmode m str) = "drwxr-Sr-x ".toList) := by
  have e := strmode_eq m str h
  have c : cstr (strmode m str) = modeChars m := by rw [e, cstr_modeChars]
  refine ⟨e, c, ?_, ?_, ?_⟩
  · rw [c]; rfl
  · intro ht hp
    rw [c, modeChars_congr m 0o100644 (by rw [(S_ISREG_iff m).1 ht]; decide) (by rw [hp])]
    decide
  · intro ht hp
    rw [c, modeChars_congr m 0o042745 (by rw [(S_ISDIR_iff m).1 ht]; decide) (by rw [hp])]
    decide

theorem strmode_layout_witness :
    cstr (strmode 0o100644 (List.replicate 12 NUL)) = "-rw-r--r-- ".toList
    ∧ cstr (strmode 0o042745 (List.replicate 12 NUL)) = "drwxr-Sr-x ".toList :=
  ⟨(strmode_layout 0o100644 (List.replicate 12 NUL) (by decide)).2.2.2.1 (by decide) (by decide),
   (strmode_layout 0o042745 (List.replicate 12 NUL) (by decide)).2.2.2.2 (by decide) (by decide)⟩

/-- C9. The mode string determines the twelve permission bits and the type
letter: `decodeMode` recovers the bits from the string of every mode, the
first character is the type letter, and two modes with the same string agree
on the twelve bits and on the type letter. -/
theorem modeString_determines_bits :
    (∀ (m : Nat) (str : List Char), 12 ≤ str.length →
      decodeMode (cstr (strmode m str)) = m % 4096
      ∧ cget (cstr (strmode m str)) 0 = ftypelet m)
    ∧ (∀ (m1 m2 : Nat) (str1 str2 : List Char), 12 ≤ str1.length → 12 ≤ str2.length →
      cstr (strmode m1 str1) = cstr (strmode m2 str2) →
      m1 % 4096 = m2 % 4096 ∧ ftypelet m1 = ftypelet m2
      ∧ ∀ i, i < 12 → m1.testBit i = m2.testBit i) := by
  have key : ∀ (m : Nat) (str : List Char), 12 ≤ str.length →
      decodeMode (cstr (strmode m str)) = m % 4096
      ∧ cget (cstr (strmode m str)) 0 = ftypelet m := by
    intro m str h
    rw [strmode_eq m str h, cstr_modeChars, decodeMode_modeChars, ftypelet_eq]
    exact ⟨rfl, rfl⟩
  refine ⟨key, ?_⟩
  intro m1 m2 str1 str2 h1 h2 heq
  have k1 := key m1 str1 h1
  have k2 := key m2 str2 h2
  rw [heq] at k1
  have hm : m1 % 4096 = m2 % 4096 := by rw [← k1.1, k2.1]
  refine ⟨hm, by rw [← k1.2, k2.2], ?_⟩
  intro i hi
  rw [testBit_low m1 i hi, testBit_low m2 i hi, hm]

theorem attach_test (base : List Char) (hb : NUL ∉ base) :
    (cget base 0 ≠ '.' ∨ cget base 1 ≠ NUL) ↔ base ≠ ['.'] := by
  match base, hb with
  | [], _ => simp [cget]; decide
  | [c], _ => simp [cget]
  | c :: d :: r, hb =>
    have hd : d ≠ NUL := fun h => hb (by simp [h])
    simp [cget, hd]

theorem cget_last (base : List Char) :
    cget base (base.length - 1) = (base.getLast?).getD NUL := by
  unfold cget
  rw [List.getD_eq_getElem?_getD, List.getLast?_eq_getElem?]

/-- C2. For a base directory string and a member name, `attach` leaves in
`dest` the name alone when the base is exactly `.`, the base followed by the
name when the base ends with a slash, and the base, a slash and the name for
every other non-empty base; the bytes stored, terminator included, fit in
`len(base) + len(name) + 2`. -/
theorem attach_result (base name : List Char) (hb : NUL ∉ base) :
    (base = ['.'] → attach base name = name)
    ∧ (base.getLast? = some '/' → attach base name = base ++ name)
    ∧ (base ≠ [] → base ≠ ['.'] → base.getLast? ≠ some '/' →
        attach base name = base ++ ['/'] ++ name)
    ∧ attach_bytes base name ≤ attach_alloc base name := by
  have ht := attach_test base hb
  have hl := cget_last base
  refine ⟨?_, ?_, ?_, ?_⟩
  · intro h
    have : ¬ (cget base 0 ≠ '.' ∨ cget base 1 ≠ NUL) := by rw [ht]; simp [h]
    simp only [attach, if_neg this, List.nil_append]
  · intro h
    have h1 : cget base 0 ≠ '.' ∨ cget base 1 ≠ NUL := by
      rw [ht]; intro hc; rw [hc] at h; revert h; decide
    have h2 : ¬ (0 < base.length ∧ cget base (base.length - 1) ≠ '/') := by
      rw [hl, h]; simp
    simp only [attach, if_pos h1, if_neg h2]
  · intro hne hdot hlast
    have h1 : cget base 0 ≠ '.' ∨ cget base 1 ≠ NUL := by rw [ht]; exact hdot
    have h2 : 0 < base.length ∧ cget base (base.length - 1) ≠ '/' := by
      refine ⟨List.length_pos.2 hne, ?_⟩
      rw [hl]
      cases hg : base.getLast? with
      | none => simp; decide
      | some c => rw [hg] at hlast; simpa using hlast
    simp only [attach, if_pos h1, if_pos h2]
  · unfold attach_bytes attach_alloc attach
    split_ifs <;> simp <;> omega

theorem attach_result_witness :
    attach "/usr".toList "bin".toList = "/usr/bin".toList
    ∧ attach "/".toList "bin".toList = "/bin".toList
    ∧ attach ".".toList "bin".toList = "bin".toList :=
  ⟨(attach_result "/usr".toList "bin".toList (by decide)).2.2.1 (by decide) (by decide)
      (by decide),
   (attach_result "/".toList "bin".toList (by decide)).2.1 (by decide),
   (attach_result ".".toList "bin".toList (by decide)).1 (by decide)⟩

theorem cstr_no_NUL (l : List Char) : ∀ c ∈ cstr l, c ≠ NUL := by
  intro c hc
  have h := List.mem_takeWhile_imp hc
  simpa using h

theorem resolve_link_no_NUL (os : OS) (f : List Char) : ∀ c ∈ resolve_link os f, c ≠ NUL :=
  cstr_no_NUL _

theorem cstr_strdup (s : List Char) (h : ∀ c ∈ s, c ≠ NUL) : cstr (strdup s) = s :=
  cstr_append_NUL s [] h

theorem link_name_length (name linkname : List Char) :
    (link_name name linkname).length = link_name_alloc name linkname := by
  have h4 : " -> ".toList.length = 4 := by decide
  show (name ++ " -> ".toList ++ linkname).length = name.length + 4 + linkname.length
  rw [List.length_append, List.length_append, h4]

/-- The bytes of `sprintf` that fit in the block asked for: all but the
terminator. -/
theorem link_name_block (name linkname : List Char) :
    (link_name name linkname ++ [NUL]).take (link_name_alloc name linkname)
      = link_name name linkname := by
  rw [← link_name_length]
  exact List.take_left' rfl

theorem gobble_file_ok (os : OS) (name dirname : List Char) (s : State) (st : Stat)
    (h : os.lstat (absolute_name name dirname) = some st) :
    gobble_file os name dirname s =
      .ret (to_uintmax st.st_blocks)
        { s with
          cwd_file := Function.update s.cwd_file s.cwd_n_used
            (record_at os name (absolute_name name dirname)),
          cwd_n_alloc := if s.cwd_n_used = s.cwd_n_alloc then s.cwd_n_alloc * 2
                         else s.cwd_n_alloc,
          cwd_n_used := s.cwd_n_used + 1 } := by
  have hc : cstr (resolve_link os (absolute_name name dirname) ++ [NUL])
      = resolve_link os (absolute_name name dirname) :=
    cstr_strdup _ (resolve_link_no_NUL os (absolute_name name dirname))
  have hb := link_name_block name (resolve_link os (absolute_name name dirname))
  unfold gobble_file record_at stat_at
  simp only [h, Option.getD_some]
  by_cases hl : S_ISLNK st.st_mode = true <;> by_cases hu : s.cwd_n_used = s.cwd_n_alloc <;>
    simp only [hl, hu, if_true, if_false, State.store, Function.update_same,
      Function.update_idem, strdup, Option.getD_some, hc, hb, Bool.false_eq_true] <;> rfl

theorem gobble_file_fail (os : OS) (name dirname : List Char) (s : State)
    (h : os.lstat (absolute_name name dirname) = none) :
    gobble_file os name dirname s =
      .exit 1
        { s with
          cwd_file := Function.update s.cwd_file s.cwd_n_used fileinfo.zero,
          cwd_n_alloc := if s.cwd_n_used = s.cwd_n_alloc then s.cwd_n_alloc * 2
                         else s.cwd_n_alloc,
          stderr := s.stderr ++ [⟨absolute_name name dirname, "cannot access %s".toList⟩] } := by
  unfold gobble_file
  simp only [h]
  by_cases hu : s.cwd_n_used = s.cwd_n_alloc <;>
    simp [hu, State.store, file_failure, Result.bind]

theorem file_ignored_eq (n : List Char) : file_ignored n = begins_with_dot n := by
  cases n with
  | nil => decide
  | cons c r =>
    simp only [file_ignored, begins_with_dot, cget, List.getD_cons_zero, List.head?_cons]
    by_cases h : c = '.' <;> simp [h]

theorem table_push (s : State) (r : fileinfo) (a : Nat) :
    table { s with cwd_file := Function.update s.cwd_file s.cwd_n_used r,
                   cwd_n_alloc := a, cwd_n_used := s.cwd_n_used + 1 }
      = table s ++ [r] := by
  unfold table
  simp only [List.range_succ, List.map_append, List.map_cons, List.map_nil,
    Function.update_same]
  congr 1
  apply List.map_congr_left
  intro i hi
  have : i ≠ s.cwd_n_used := Nat.ne_of_lt (List.mem_range.1 hi)
  exact Function.update_noteq this _ _

theorem to_uintmax_step (total : Nat) (b rest : Int) :
    to_uintmax (((total + to_uintmax b) % 18446744073709551616 : Nat) + rest)
      = to_uintmax (total + (b + rest)) := by
  unfold to_uintmax; omega

theorem listed_cons_dot (n : List Char) (rest : List ReadEvent)
    (h : begins_with_dot n = true) : listed (.entry n :: rest) = listed rest := by
  simp [listed, enumerated, h]

theorem listed_cons_plain (n : List Char) (rest : List ReadEvent)
    (h : begins_with_dot n = false) : listed (.entry n :: rest) = n :: listed rest := by
  simp [listed, enumerated, h]

/-- A successful append, by its effects. -/
theorem gobble_file_appends (os : OS) (name dirname : List Char) (s : State) (st : Stat)
    (h : os.lstat (absolute_name name dirname) = some st) :
    ∃ s', gobble_file os name dirname s = .ret (to_uintmax st.st_blocks) s'
      ∧ table s' = table s ++ [record_at os name (absolute_name name dirname)]
      ∧ s'.cwd_n_used = s.cwd_n_used + 1
      ∧ s'.cwd_n_alloc = (if s.cwd_n_used = s.cwd_n_alloc then s.cwd_n_alloc * 2
                          else s.cwd_n_alloc)
      ∧ s'.stdout = s.stdout ∧ s'.stderr = s.stderr :=
  ⟨_, gobble_file_ok os name dirname s st h, table_push s _ _, rfl, rfl, rfl, rfl⟩

theorem reads_succeed_iff (stream : List ReadEvent) (h : reads_succeed stream = true) :
    ∀ e, ReadEvent.null e ∉ stream := by
  intro e he
  unfold reads_succeed at h
  rw [List.all_eq_true] at h
  exact absurd (h _ he) (by simp)

/-- The reading loop on a stream without read errors whose listed entries can
all be statted: it returns, every listed entry has been appended in order, the
total is the sum of the blocks modulo `2 ^ 64`, nothing has been printed. -/
theorem read_loop_ok (os : OS) (name : List Char) :
    ∀ (stream : List ReadEvent) (total : Nat) (s : State),
      total < 18446744073709551616 →
      (∀ e, ReadEvent.null e ∉ stream) →
      (∀ n ∈ listed stream, (os.lstat (absolute_name n name)).isSome = true) →
      ∃ s', read_loop os name stream total s
            = .ret (to_uintmax (total
                + ((listed stream).map fun n =>
                    (stat_at os (absolute_name n name)).st_blocks).sum)) s'
        ∧ table s' = table s
            ++ (listed stream).map (fun n => record_at os n (absolute_name n name))
        ∧ s'.cwd_n_used = s.cwd_n_used + (listed stream).length
        ∧ s'.stdout = s.stdout ∧ s'.stderr = s.stderr := by
  intro stream
  induction stream with
  | nil =>
    intro total s ht _ _
    refine ⟨s, ?_, by simp [listed, enumerated], by simp [listed, enumerated], rfl, rfl⟩
    have : to_uintmax (total + ((listed []).map fun n =>
        (stat_at os (absolute_name n name)).st_blocks).sum) = total := by
      simp only [listed, enumerated, List.filter_nil, List.map_nil, List.sum_nil, to_uintmax]
      omega
    rw [this]; rfl
  | cons ev rest ih =>
    intro total s ht hre hst
    cases ev with
    | null e => exact absurd (List.mem_cons_self _ _) (hre e)
    | entry n =>
      have hre' : ∀ e, ReadEvent.null e ∉ rest := fun e h => hre e (List.mem_cons_of_mem _ h)
      cases hd : begins_with_dot n with
      | true =>
        rw [listed_cons_dot n rest hd] at hst ⊢
        obtain ⟨s', h1, h2⟩ := ih total s ht hre' hst
        refine ⟨s', ?_, h2⟩
        rw [← h1]
        simp [read_loop, file_ignored_eq, hd]
      | false =>
        rw [listed_cons_plain n rest hd] at hst ⊢
        obtain ⟨st, hstn⟩ := Option.isSome_iff_exists.1 (hst n (List.mem_cons_self _ _))
        have hst' : ∀ m ∈ listed rest, (os.lstat (absolute_name m name)).isSome = true :=
          fun m hm => hst m (List.mem_cons_of_mem _ hm)
        obtain ⟨s1, hg, g2, g3, _, g4, g5⟩ := gobble_file_appends os n name s st hstn
        have hstat : (stat_at os (absolute_name n name)).st_blocks = st.st_blocks := by
          simp [stat_at, hstn]
        obtain ⟨s', h1, h2, h3, h4, h5⟩ :=
          ih ((total + to_uintmax st.st_blocks) % 18446744073709551616) s1
            (Nat.mod_lt _ (by norm_num)) hre' hst'
        refine ⟨s', ?_, ?_, ?_, ?_, ?_⟩
        · rw [List.map_cons, List.sum_cons, hstat, ← to_uintmax_step, ← h1]
          simp only [read_loop, file_ignored_eq, hd, Bool.not_false, if_true, hg, Result.bind]
        · rw [h2, g2]; simp
        · rw [h3, g3]; simp; omega
        · rw [h4, g4]
        · rw [h5, g5]

/-- The run of the program is `print_dir` on the directory argument, started
with the table `main` sets up. -/
theorem main_eq (os : OS) (argv : List (List Char)) :
    main os argv
      = print_dir os (if argv.length ≥ 2 then argv.getD 1 [] else ".".toList)
          (main_setup State.start) := rfl

theorem readlink_into_short (t : List Char) (h : t.length < LINK_BUF_LEN) :
    readlink_into (some t) (List.replicate LINK_BUF_LEN NUL) LINK_BUF_LEN
      = t ++ NUL :: List.replicate (LINK_BUF_LEN - t.length - 1) NUL := by
  unfold readlink_into
  have h1 : t.take LINK_BUF_LEN = t := List.take_of_length_le (Nat.le_of_lt h)
  have h2 : min t.length LINK_BUF_LEN = t.length := Nat.min_eq_left (Nat.le_of_lt h)
  simp only [h1, h2, List.drop_replicate]
  have h3 : LINK_BUF_LEN - t.length = (LINK_BUF_LEN - t.length - 1) + 1 := by omega
  rw [h3, List.replicate_succ]
  simp

theorem readlink_into_long (t : List Char) (h : LINK_BUF_LEN ≤ t.length) :
    readlink_into (some t) (List.replicate LINK_BUF_LEN NUL) LINK_BUF_LEN
      = t.take LINK_BUF_LEN := by
  unfold readlink_into
  have h2 : min t.length LINK_BUF_LEN = LINK_BUF_LEN := Nat.min_eq_right h
  simp [h2]

theorem cstr_append_of_no_NUL (l rest : List Char) (h : ∀ c ∈ l, c ≠ NUL) :
    cstr (l ++ rest) = l ++ cstr rest := by
  induction l with
  | nil => rfl
  | cons a l ih =>
    have ha : a ≠ NUL := h a (List.mem_cons_self a l)
    have hl := ih (fun c hc => h c (List.mem_cons_of_mem a hc))
    unfold cstr at hl ⊢
    simp [List.takeWhile_cons, ha, hl]

/-- C5. The target string of a link, by the length of the actual target `t`:
a target shorter than the 500-byte buffer is returned whole; a target of 500
bytes or more fills the buffer, which then holds no terminator, so the string
returned is the first 500 bytes followed by whatever memory follows the
buffer up to the first `NUL`, and it is not the first 499 bytes of the target.
The display name `gobble_file` stores for a link is the entry name, then
` -> `, then that string. -/
theorem resolve_link_boundary (os : OS) (f t : List Char)
    (h : os.readlink f = some t) (hn : ∀ c ∈ t, c ≠ NUL) :
    (t.length < LINK_BUF_LEN → resolve_link os f = t)
    ∧ (LINK_BUF_LEN ≤ t.length →
        resolve_link os f = t.take LINK_BUF_LEN ++ cstr os.stack_after_buf
        ∧ resolve_link os f ≠ t.take (min t.length 499))
    ∧ (∀ (name dirname : List Char) (s : State) (st : Stat),
        absolute_name name dirname = f → os.lstat f = some st → S_ISLNK st.st_mode = true →
        ((gobble_file os name dirname s).state.cwd_file s.cwd_n_used).name
          = some (name ++ " -> ".toList ++ resolve_link os f)) := by
  refine ⟨?_, ?_, ?_⟩
  · intro hlt
    unfold resolve_link
    simp only [h]
    rw [readlink_into_short t hlt, List.append_assoc, List.cons_append]
    exact cstr_append_NUL t _ hn
  · intro hge
    have e : resolve_link os f = t.take LINK_BUF_LEN ++ cstr os.stack_after_buf := by
      unfold resolve_link
      simp only [h]
      rw [readlink_into_long t hge]
      exact cstr_append_of_no_NUL _ _ (fun c hc => hn c (List.mem_of_mem_take hc))
    refine ⟨e, ?_⟩
    intro hc
    have hlen := congrArg List.length hc
    rw [e] at hlen
    simp only [List.length_append, List.length_take] at hlen
    unfold LINK_BUF_LEN at hlen hge
    omega
  · intro name dirname s st hf hst hl
    subst hf
    rw [gobble_file_ok os name dirname s st hst]
    simp only [Result.state, Function.update_same, record_at, stat_at, hst, Option.getD_some, hl,
      if_true]

theorem resolve_link_boundary_witness :
    resolve_link os_long_link "l".toList = List.replicate 500 'a' ++ ['X', 'Y']
    ∧ resolve_link os_long_link "l".toList ≠ List.replicate 499 'a' := by
  have hlen : (List.replicate 500 'a').length = 500 := List.length_replicate 500 'a'
  have hw := (resolve_link_boundary os_long_link "l".toList (List.replicate 500 'a') rfl
    (fun c hc => by rw [List.eq_of_mem_replicate hc]; decide)).2.1
    (by rw [hlen]; exact Nat.le_refl 500)
  have h1 : (List.replicate 500 'a').take LINK_BUF_LEN = List.replicate 500 'a' :=
    List.take_of_length_le (by rw [hlen]; exact Nat.le_refl 500)
  have h2 : cstr os_long_link.stack_after_buf = ['X', 'Y'] := by decide
  have e : resolve_link os_long_link "l".toList = List.replicate 500 'a' ++ ['X', 'Y'] := by
    rw [hw.1, h1, h2]
  refine ⟨e, ?_⟩
  intro hc
  have hl := congrArg List.length hc
  rw [e, List.length_append, hlen, List.length_replicate] at hl
  exact absurd hl (by decide)
theorem table_same_used (s : State) (r : fileinfo) (a : Nat) (e : List Report) :
    table { s with cwd_file := Function.update s.cwd_file s.cwd_n_used r,
                   cwd_n_alloc := a, stderr := e } = table s := by
  unfold table
  apply List.map_congr_left
  intro i hi
  have : i ≠ s.cwd_n_used := Nat.ne_of_lt (List.mem_range.1 hi)
  exact Function.update_noteq this _ _

/-- C6. When the non-following stat of an entry fails, `gobble_file` does not
return: the process ends with status 1 inside `file_failure`, which has
reported the path; the used-count is what it was and the table holds the same
records, so no record with the bare name has been appended. -/
theorem gobble_file_stat_failure (os : OS) (name dirname : List Char) (s : State)
    (h : os.lstat (absolute_name name dirname) = none) :
    (gobble_file os name dirname s).status = some 1
    ∧ (gobble_file os name dirname s).value = none
    ∧ (gobble_file os name dirname s).state.cwd_n_used = s.cwd_n_used
    ∧ table (gobble_file os name dirname s).state = table s
    ∧ (gobble_file os name dirname s).state.stderr
        = s.stderr ++ [⟨absolute_name name dirname, "cannot access %s".toList⟩] := by
  rw [gobble_file_fail os name dirname s h]
  exact ⟨rfl, rfl, rfl, table_same_used s _ _ _, rfl⟩

theorem gobble_file_stat_failure_witness :
    (gobble_file os_gone "gone".toList ".".toList (main_setup State.start)).status = some 1
    ∧ (gobble_file os_gone "gone".toList ".".toList (main_setup State.start)).state.cwd_n_used
        = 0
    ∧ table (gobble_file os_gone "gone".toList ".".toList (main_setup State.start)).state
        = [] :=
  have hw := gobble_file_stat_failure os_gone "gone".toList ".".toList (main_setup State.start)
    rfl
  ⟨hw.1, hw.2.2.1, hw.2.2.2.1⟩

/-- C10. For every entry name and every target string, the block
`gobble_file` asks `malloc` for is one byte shorter than what `sprintf` then
stores into it (the name, ` -> `, the target and the terminator); for the name
`a` and the target `b` it asks for 6 bytes and stores 7. -/
theorem link_name_alloc_short :
    (∀ name linkname : List Char,
      link_name_bytes name linkname = link_name_alloc name linkname + 1
      ∧ link_name_alloc name linkname < link_name_bytes name linkname)
    ∧ link_name_alloc "a".toList "b".toList = 6
    ∧ link_name_bytes "a".toList "b".toList = 7 := by
  refine ⟨?_, by decide, by decide⟩
  intro name linkname
  have h4 : " -> ".toList.length = 4 := by decide
  have e : link_name_bytes name linkname = link_name_alloc name linkname + 1 := by
    show (name ++ " -> ".toList ++ linkname).length + 1 = name.length + 4 + linkname.length + 1
    rw [List.length_append, List.length_append, h4]
  exact ⟨e, by omega⟩
theorem read_loop_append (os : OS) (name : List Char) (tail : List ReadEvent) :
    ∀ (pre : List ReadEvent) (total : Nat) (s : State), reads_succeed pre = true →
      read_loop os name (pre ++ tail) total s
        = (read_loop os name pre total s).bind fun t s1 => read_loop os name tail t s1 := by
  intro pre
  induction pre with
  | nil => intro total s _; rfl
  | cons ev rest ih =>
    intro total s hpre
    cases ev with
    | null e => exact absurd (List.mem_cons_self _ _) (reads_succeed_iff _ hpre e)
    | entry n =>
      have hrest : reads_succeed rest = true := by
        unfold reads_succeed at hpre ⊢
        rw [List.all_cons] at hpre
        exact (Bool.and_eq_true _ _ ▸ hpre).2
      simp only [List.cons_append, read_loop]
      by_cases hi : file_ignored n = true
      · simp only [hi, Bool.not_true, Bool.false_eq_true, if_false]
        exact ih total s hrest
      · have hf : file_ignored n = false := by simpa using hi
        simp only [hf, Bool.not_false, if_true]
        cases gobble_file os n name s with
        | exit c s1 => rfl
        | fault s1 => rfl
        | ret b s1 =>
          simp only [Result.bind]
          exact ih _ s1 hrest

/-- C7. What the code does on each failure it reports, against the claim that
only an open failure or a stat failure ends the process. An open failure ends
the process with status 1. A stat failure on a non-filtered entry ends it with
status 1. A read failure (any `errno` other than zero, `EOVERFLOW` included)
after reads and stats that succeeded also ends it with status 1: only the
report is written, the summary line is not printed, the records collected so
far stay unprinted in the table and nothing more is read. A close failure
after a scan that succeeded ends it with status 1 as well, with the summary
line and every collected record unprinted. -/
theorem failure_policy (os : OS) (name : List Char) (s : State) :
    (os.opendir name = none →
      (print_dir os name s).status = some 1 ∧ (print_dir os name s).state.stdout = s.stdout)
    ∧ (∀ (dirp : Dir) (pre : List ReadEvent) (n : List Char) (rest : List ReadEvent),
        os.opendir name = some dirp → dirp.stream = pre ++ .entry n :: rest →
        reads_succeed pre = true →
        (∀ m ∈ listed pre, (os.lstat (absolute_name m name)).isSome = true) →
        file_ignored n = false → os.lstat (absolute_name n name) = none →
        (print_dir os name s).status = some 1 ∧ (print_dir os name s).state.stdout = s.stdout)
    ∧ (∀ (dirp : Dir) (pre : List ReadEvent) (e : Nat) (rest : List ReadEvent),
        os.opendir name = some dirp → dirp.stream = pre ++ .null e :: rest →
        reads_succeed pre = true →
        (∀ m ∈ listed pre, (os.lstat (absolute_name m name)).isSome = true) →
        e ≠ 0 →
        (print_dir os name s).status = some 1
        ∧ (print_dir os name s).state.stdout = s.stdout
        ∧ (print_dir os name s).state.stderr
            = s.stderr ++ [⟨name, "reading directory %s".toList⟩]
        ∧ table (print_dir os name s).state
            = table s ++ (listed pre).map (fun m => record_at os m (absolute_name m name)))
    ∧ (∀ dirp : Dir,
        os.opendir name = some dirp → reads_succeed dirp.stream = true →
        (∀ m ∈ listed dirp.stream, (os.lstat (absolute_name m name)).isSome = true) →
        dirp.closes = false →
        (print_dir os name s).status = some 1
        ∧ (print_dir os name s).state.stdout = s.stdout
        ∧ (print_dir os name s).state.stderr
            = s.stderr ++ [⟨name, "closing directory %s".toList⟩]
        ∧ table (print_dir os name s).state
            = table s
              ++ (listed dirp.stream).map (fun m => record_at os m (absolute_name m name))) := by
  refine ⟨?_, ?_, ?_, ?_⟩
  · intro h
    simp only [print_dir, h, file_failure, Result.bind, Result.status, Result.state, and_self]
  · intro dirp pre n rest hopen hstream hpre hstat hign hfail
    obtain ⟨s1, h1, _, _, h4, _⟩ :=
      read_loop_ok os name pre 0 s (by norm_num) (reads_succeed_iff _ hpre) hstat
    have hloop : read_loop os name dirp.stream 0 s
        = .exit 1 { s1 with
            cwd_file := Function.update s1.cwd_file s1.cwd_n_used fileinfo.zero,
            cwd_n_alloc := if s1.cwd_n_used = s1.cwd_n_alloc then s1.cwd_n_alloc * 2
                           else s1.cwd_n_alloc,
            stderr := s1.stderr ++ [⟨absolute_name n name, "cannot access %s".toList⟩] } := by
      rw [hstream, read_loop_append os name _ pre 0 s hpre, h1]
      simp only [Result.bind, read_loop, hign, Bool.not_false, if_true,
        gobble_file_fail os n name s1 hfail]
    simp only [print_dir, hopen, hloop, Result.bind, Result.status, Result.state, h4, and_self]
  · intro dirp pre e rest hopen hstream hpre hstat he
    obtain ⟨s1, h1, h2, _, h4, h5⟩ :=
      read_loop_ok os name pre 0 s (by norm_num) (reads_succeed_iff _ hpre) hstat
    have hloop : read_loop os name dirp.stream 0 s
        = .exit 1 { s1 with
            stderr := s1.stderr ++ [⟨name, "reading directory %s".toList⟩] } := by
      rw [hstream, read_loop_append os name _ pre 0 s hpre, h1]
      simp only [Result.bind, read_loop, he, ne_eq, not_false_eq_true, if_true, file_failure]
    simp only [print_dir, hopen, hloop, Result.bind, Result.status, Result.state, h4, h5,
      true_and]
    exact h2
  · intro dirp hopen hreads hstat hclose
    obtain ⟨s1, h1, h2, _, h4, h5⟩ :=
      read_loop_ok os name dirp.stream 0 s (by norm_num) (reads_succeed_iff _ hreads) hstat
    simp only [print_dir, hopen, h1, Result.bind, hclose, Bool.false_eq_true, if_false,
      file_failure, Result.status, Result.state, h4, h5, true_and]
    exact h2

theorem failure_policy_witness :
    ((print_dir os_small "/x".toList (main_setup State.start)).status = some 1)
    ∧ ((print_dir os_gone ".".toList (main_setup State.start)).status = some 1)
    ∧ ((print_dir os_read_error ".".toList (main_setup State.start)).status = some 1
      ∧ (print_dir os_read_error ".".toList (main_setup State.start)).state.stdout = []
      ∧ (print_dir os_read_error ".".toList (main_setup State.start)).state.stderr
          = [⟨".".toList, "reading directory %s".toList⟩]
      ∧ table (print_dir os_read_error ".".toList (main_setup State.start)).state = [])
    ∧ ((print_dir os_close_error ".".toList (main_setup State.start)).status = some 1
      ∧ (print_dir os_close_error ".".toList (main_setup State.start)).state.stdout = []
      ∧ (print_dir os_close_error ".".toList (main_setup State.start)).state.stderr
          = [⟨".".toList, "closing directory %s".toList⟩]
      ∧ table (print_dir os_close_error ".".toList (main_setup State.start)).state
          = [⟨some ("a".toList ++ [NUL]), none, ⟨0o100644, 1, 0, 0, 8, 0⟩⟩]) :=
  ⟨((failure_policy os_small "/x".toList (main_setup State.start)).1 rfl).1,
   ((failure_policy os_gone ".".toList (main_setup State.start)).2.1
      ⟨[.entry "gone".toList], true⟩ [] "gone".toList [] rfl rfl rfl (by decide) rfl rfl).1,
   (failure_policy os_read_error ".".toList (main_setup State.start)).2.2.1
      ⟨[.null 5, .entry "a".toList], true⟩ [] 5 [.entry "a".toList] rfl rfl rfl (by decide)
      (by decide),
   (failure_policy os_close_error ".".toList (main_setup State.start)).2.2.2
      ⟨[.entry "a".toList], false⟩ rfl rfl (by decide) rfl⟩

theorem gobble_file_counters (os : OS) (name dirname : List Char) (s s' : State) (blocks : Nat)
    (h : gobble_file os name dirname s = .ret blocks s') :
    s'.cwd_n_used = s.cwd_n_used + 1
    ∧ s'.cwd_n_alloc = (if s.cwd_n_used = s.cwd_n_alloc then s.cwd_n_alloc * 2
                        else s.cwd_n_alloc) := by
  cases hst : os.lstat (absolute_name name dirname) with
  | none =>
    rw [gobble_file_fail os name dirname s hst] at h
    exact Result.noConfusion h
  | some st =>
    rw [gobble_file_ok os name dirname s st hst] at h
    injection h with _ hs
    rw [← hs]
    exact ⟨rfl, rfl⟩

theorem run_ops_invariant (os : OS) :
    ∀ (ops : List TableOp) (s s' : State),
      s.cwd_n_used ≤ s.cwd_n_alloc → 0 < s.cwd_n_alloc → run_ops os ops s = some s' →
      s'.cwd_n_used ≤ s'.cwd_n_alloc ∧ 0 < s'.cwd_n_alloc := by
  intro ops
  induction ops with
  | nil =>
    intro s s' h1 h2 h
    simp only [run_ops, Option.some.injEq] at h
    rw [← h]; exact ⟨h1, h2⟩
  | cons op ops ih =>
    intro s s' h1 h2 h
    cases op with
    | clear =>
      simp only [run_ops] at h
      exact ih (clear_files s) s' (Nat.zero_le _) h2 h
    | append name dirname =>
      simp only [run_ops] at h
      cases hg : gobble_file os name dirname s with
      | exit c s1 => rw [hg] at h; exact Option.noConfusion h
      | fault s1 => rw [hg] at h; exact Option.noConfusion h
      | ret b s1 =>
        rw [hg] at h
        obtain ⟨hu, ha⟩ := gobble_file_counters os name dirname s s1 b hg
        refine ih s1 s' ?_ ?_ h
        · rw [hu, ha]; split_ifs <;> omega
        · rw [ha]; split_ifs <;> omega

/-- C8. `main` sets up a capacity of 100 and a used-count of 0; after any
sequence of `clear_files` calls and `gobble_file` appends that return, the
used-count does not exceed the capacity; an append that returns raises the
used-count by one and doubles the capacity exactly when it found the
used-count equal to the capacity; `clear_files` sets the used-count to zero
and leaves the capacity alone. -/
theorem table_invariant (os : OS) :
    ((main_setup State.start).cwd_n_alloc = 100 ∧ (main_setup State.start).cwd_n_used = 0)
    ∧ (∀ (ops : List TableOp) (s' : State),
        run_ops os ops (main_setup State.start) = some s' → s'.cwd_n_used ≤ s'.cwd_n_alloc)
    ∧ (∀ (name dirname : List Char) (s s' : State) (blocks : Nat),
        gobble_file os name dirname s = .ret blocks s' →
        s'.cwd_n_used = s.cwd_n_used + 1
        ∧ (s.cwd_n_used = s.cwd_n_alloc → s'.cwd_n_alloc = 2 * s.cwd_n_alloc)
        ∧ (s.cwd_n_used ≠ s.cwd_n_alloc → s'.cwd_n_alloc = s.cwd_n_alloc))
    ∧ (∀ s : State,
        (clear_files s).cwd_n_used = 0 ∧ (clear_files s).cwd_n_alloc = s.cwd_n_alloc) := by
  refine ⟨⟨rfl, rfl⟩, ?_, ?_, fun s => ⟨rfl, rfl⟩⟩
  · intro ops s' h
    exact (run_ops_invariant os ops _ s' (by decide) (by decide) h).1
  · intro name dirname s s' blocks h
    obtain ⟨hu, ha⟩ := gobble_file_counters os name dirname s s' blocks h
    refine ⟨hu, ?_, ?_⟩
    · intro he; rw [ha, if_pos he]; omega
    · intro hne; rw [ha, if_neg hne]

theorem run_ops_append (os : OS) (ops2 : List TableOp) :
    ∀ (ops1 : List TableOp) (s : State),
      run_ops os (ops1 ++ ops2) s = (run_ops os ops1 s).bind fun s1 => run_ops os ops2 s1 := by
  intro ops1
  induction ops1 with
  | nil => intro s; rfl
  | cons op ops ih =>
    intro s
    cases op with
    | clear => exact ih (clear_files s)
    | append name dirname =>
      simp only [List.cons_append, run_ops]
      cases gobble_file os name dirname s with
      | exit c s1 => rfl
      | fault s1 => rfl
      | ret b s1 => exact ih s1

/-- Appends that stay within the capacity leave it alone. -/
theorem run_ops_within (os : OS) (name dirname : List Char) (st : Stat)
    (hst : os.lstat (absolute_name name dirname) = some st) :
    ∀ (n : Nat) (s : State), s.cwd_n_used + n ≤ s.cwd_n_alloc →
      ∃ s', run_ops os (List.replicate n (.append name dirname)) s = some s'
        ∧ s'.cwd_n_used = s.cwd_n_used + n ∧ s'.cwd_n_alloc = s.cwd_n_alloc := by
  intro n
  induction n with
  | zero => intro s _; exact ⟨s, rfl, rfl, rfl⟩
  | succ n ih =>
    intro s h
    obtain ⟨s1, hg, _, hu, ha, _⟩ := gobble_file_appends os name dirname s st hst
    have hne : s.cwd_n_used ≠ s.cwd_n_alloc := by omega
    rw [if_neg hne] at ha
    obtain ⟨s', hr, hu', ha'⟩ := ih s1 (by omega)
    refine ⟨s', ?_, by omega, by omega⟩
    simp only [List.replicate_succ, run_ops, hg]
    exact hr

theorem table_invariant_witness :
    ∃ s' : State,
      run_ops os_big
        (List.replicate 100 (.append "a".toList ".".toList)
          ++ (.append "a".toList ".".toList :: .clear
            :: List.replicate 3 (.append "a".toList ".".toList)))
        (main_setup State.start) = some s'
      ∧ s'.cwd_n_used = 3 ∧ s'.cwd_n_alloc = 200 ∧ s'.cwd_n_used ≤ s'.cwd_n_alloc := by
  obtain ⟨s1, h1, u1, a1⟩ :=
    run_ops_within os_big "a".toList ".".toList _ rfl 100 (main_setup State.start)
      (by decide)
  obtain ⟨s2, hg, _, u2, a2, _⟩ :=
    gobble_file_appends os_big "a".toList ".".toList s1 _ rfl
  have e1 : s1.cwd_n_used = s1.cwd_n_alloc := by rw [u1, a1]; rfl
  rw [if_pos e1] at a2
  obtain ⟨s3, h3, u3, a3⟩ :=
    run_ops_within os_big "a".toList ".".toList _ rfl 3 (clear_files s2)
      (by show 0 + 3 ≤ s2.cwd_n_alloc; rw [a2, a1]; decide)
  have hrun : run_ops os_big
      (List.replicate 100 (.append "a".toList ".".toList)
        ++ (.append "a".toList ".".toList :: .clear
          :: List.replicate 3 (.append "a".toList ".".toList)))
      (main_setup State.start) = some s3 := by
    rw [run_ops_append, h1]
    simp only [Option.bind, run_ops, hg]
    exact h3
  have hu : s3.cwd_n_used = 3 := by rw [u3]; rfl
  have ha : s3.cwd_n_alloc = 200 := by
    rw [a3]; show s2.cwd_n_alloc = 200; rw [a2, a1]; rfl
  exact ⟨s3, hrun, hu, ha, (table_invariant os_big).2.1 _ s3 hrun⟩
end Ls
